import Mathlib

/-!
# Warcraft-Parse-Analyzer: the aggregation core of `src/WarcraftLogsReport.jsx`

A shallow embedding of the component's logic:

* the presentation helpers `getClassColor`, `getPercentileBadgeVariant`, `formatTime`;
* the grouping of parses by fight inside `fetchReport`, with the view state it writes;
* `calculatePlayerAverages`.

Modelling conventions.

* A JavaScript object used as a dictionary (`classColors`, `fightPlayerParses`,
  `playerParses`) is an association list in insertion order: assigning to a key that is
  present replaces its value in place, assigning to a new key appends it, and
  `Object.keys` / `Object.values` enumerate in list order.  The keys are class names,
  encounter names and character names delivered by the API; integer-like keys and the
  member names of `Object.prototype` are not among them.
* `null` / `undefined` / an absent field is `none`.
* Numbers are exact: integer percentiles are `Int`, raw percentiles of the API are
  rationals, durations are natural numbers.
* `Array.prototype.sort` is stable (ECMAScript 2019), so with a comparator that is a
  difference of integer keys its result is determined; it is modelled by a stable
  insertion sort.
-/

namespace WarcraftLogs

/-! ## JavaScript helpers -/

/-- The expression `v || d` for a string-or-absent `v`: the empty string and an absent
value are falsy. -/
def orElse (v : Option String) (d : String) : String :=
  match v with
  | some s => if s = "" then d else s
  | none => d

/-- The expression `v || null` for a string-or-absent `v`. -/
def orNull (v : Option String) : Option String :=
  match v with
  | some s => if s = "" then none else some s
  | none => none

/-- The property key a value is converted to by `obj[v]`: `null` becomes the key "null". -/
def propertyKey (v : Option String) : String :=
  match v with
  | some s => s
  | none => "null"

/-- The method `String.prototype.padStart` with a one-character filler. -/
def padStart (s : String) (targetLength : Nat) (padChar : Char) : String :=
  String.mk (List.replicate (targetLength - s.length) padChar) ++ s

/-! ## Presentation helpers -/

/-- The table `classColors` of `getClassColor`, in source order. -/
def classColors : List (String × String) :=
  [("DeathKnight", "#C41E3A"), ("DemonHunter", "#A330C9"), ("Druid", "#FF7C0A"),
   ("Hunter", "#AAD372"), ("Mage", "#3FC7EB"), ("Monk", "#00FF98"),
   ("Paladin", "#F48CBA"), ("Priest", "#FFFFFF"), ("Rogue", "#FFF468"),
   ("Shaman", "#0070DD"), ("Warlock", "#8788EE"), ("Warrior", "#C69B6D"),
   ("Evoker", "#33937F"), ("NPC", "#999999"), ("Pet", "#999999")]

/-- The function `getClassColor`: `classColors[className] || "#888888"`. -/
def getClassColor (className : Option String) : String :=
  orElse (classColors.lookup (propertyKey className)) "#888888"

/-- The 13 playable classes the specification names. -/
def knownClasses : List String :=
  ["DeathKnight", "DemonHunter", "Druid", "Hunter", "Mage", "Monk", "Paladin",
   "Priest", "Rogue", "Shaman", "Warlock", "Warrior", "Evoker"]

/-- The function `getPercentileBadgeVariant`. -/
def getPercentileBadgeVariant (percentile : Int) : String :=
  if percentile ≥ 95 then "destructive"
  else if percentile ≥ 75 then "outline"
  else if percentile ≥ 50 then "secondary"
  else if percentile ≥ 25 then "default"
  else "secondary"

/-- The five tiers of the specification, lowest first. -/
inductive Tier
  | common
  | uncommon
  | rare
  | epic
  | legendary
  deriving DecidableEq, Repr

/-- Position of a tier in the order legendary > epic > rare > uncommon > common. -/
def Tier.rank : Tier → Nat
  | .common => 0
  | .uncommon => 1
  | .rare => 2
  | .epic => 3
  | .legendary => 4

/-- The tier of a percentile in the specification's words (inclusive lower bounds); the
source names the same tier in the comment on each branch. -/
def tierOf (percentile : Int) : Tier :=
  if percentile ≥ 95 then .legendary
  else if percentile ≥ 75 then .epic
  else if percentile ≥ 50 then .rare
  else if percentile ≥ 25 then .uncommon
  else .common

/-- The badge variant the source returns on the branch commented with each tier. -/
def Tier.variant : Tier → String
  | .legendary => "destructive"
  | .epic => "outline"
  | .rare => "secondary"
  | .uncommon => "default"
  | .common => "secondary"

/-- The argument of `formatTime`: `null`, `NaN`, or a non-negative integer number of
milliseconds. -/
inductive TimeInMs
  | null
  | nan
  | ms (n : Nat)
  deriving DecidableEq, Repr

/-- The function `formatTime`.  The guard `!timeInMs || isNaN(timeInMs)` holds for `null`,
for `NaN` and for `0`. -/
def formatTime (timeInMs : TimeInMs) : String :=
  match timeInMs with
  | .null => "00:00"
  | .nan => "00:00"
  | .ms n =>
    if n = 0 then "00:00"
    else
      let seconds := n / 1000
      let minutes := seconds / 60
      let remainingSeconds := seconds % 60
      toString minutes ++ ":" ++ padStart (toString remainingSeconds) 2 '0'

/-- Two decimal digits of a number below 100, the leading zero included. -/
def twoDigits (n : Nat) : String :=
  String.mk [Nat.digitChar (n / 10), Nat.digitChar (n % 10)]

/-- The format the specification gives for a duration: minutes without padding, a colon,
seconds on two digits. -/
def formatTimeSpec (ms : Nat) : String :=
  toString (ms / 60000) ++ ":" ++ twoDigits (ms / 1000 % 60)

/-! ## Arrays and dictionaries -/

/-- One step of the stable sort: `a` stood before every element of the sorted list `l` and
goes in front of the first `b` that the comparator does not put before it
(`cmp a b ≤ 0`). -/
def orderedInsertBy {α : Type} (cmp : α → α → Int) (a : α) : List α → List α
  | [] => [a]
  | b :: l => if cmp a b ≤ 0 then a :: b :: l else b :: orderedInsertBy cmp a l

/-- The method `Array.prototype.sort(cmp)`: a stable sort, `a` before `b` when
`cmp a b < 0`, input order kept when `cmp a b = 0`. -/
def arraySort {α : Type} (cmp : α → α → Int) : List α → List α
  | [] => []
  | a :: l => orderedInsertBy cmp a (arraySort cmp l)

/-- A plain object used as a dictionary, as its own properties in insertion order. -/
abbrev JSObject (β : Type) := List (String × β)

/-- The assignment `obj[k] = v`. -/
def JSObject.set {β : Type} (obj : JSObject β) (k : String) (v : β) : JSObject β :=
  match obj with
  | [] => [(k, v)]
  | (k0, v0) :: rest => if k0 = k then (k, v) :: rest else (k0, v0) :: JSObject.set rest k v

/-- The read `obj[k]`, absent when the object has no such property. -/
def JSObject.get {β : Type} (obj : JSObject β) (k : String) : Option β :=
  obj.lookup k

/-- An in-place update `f(obj[k])` of the value held under `k`. -/
def JSObject.modify {β : Type} (obj : JSObject β) (k : String) (f : β → β) : JSObject β :=
  obj.map (fun kv => if kv.1 = k then (kv.1, f kv.2) else kv)

/-- The function `Object.keys`. -/
def JSObject.keys {β : Type} (obj : JSObject β) : List String :=
  obj.map Prod.fst

/-- The function `Object.values`. -/
def JSObject.values {β : Type} (obj : JSObject β) : List β :=
  obj.map Prod.snd

/-- The function `Math.round` on an exact rational: `(2 num + den) / (2 den)` rounded
down, which is `floor(x + 1/2)` (see `mathRound_eq_floor`). -/
def mathRound (x : ℚ) : Int :=
  (2 * x.num + x.den) / (2 * x.den)

/-- Pieces of a character list between occurrences of `sep`. -/
def splitChars (sep : Char) : List Char → List (List Char)
  | [] => [[]]
  | c :: cs =>
    if c = sep then [] :: splitChars sep cs
    else
      match splitChars sep cs with
      | [] => [[c]]
      | w :: ws => (c :: w) :: ws

/-- The method `String.prototype.split` with a one-character separator. -/
def split (s : String) (sep : Char) : List String :=
  (splitChars sep s.toList).map String.mk

/-! ## Data model -/

/-- A fight of the report JSON. -/
structure Fight where
  id : Nat
  name : Option String
  boss : Int
  zoneName : String
  start : Nat
  end_ : Nat
  kill : Bool
  deriving DecidableEq, Repr

/-- An entry of `exportedCharacters`. -/
structure ExportedCharacter where
  id : Nat
  name : String
  server : String
  region : String
  deriving DecidableEq, Repr

/-- An entry of `friendlies`. -/
structure Friendly where
  name : String
  server : String
  type : Option String
  icon : Option String
  deriving DecidableEq, Repr

/-- An exported character enhanced with the class and spec of its friendly. -/
structure Player where
  id : Nat
  name : String
  server : String
  region : String
  class_ : Option String
  spec : Option String
  deriving DecidableEq, Repr

/-- A parse as the parses endpoint returns it. -/
structure RawParse where
  reportID : String
  fightID : Nat
  percentile : Option ℚ
  spec : Option String
  class_ : Option String

/-- A parse of the flattened collection: the raw parse tagged with its player's name. -/
structure PlayerParse where
  playerName : String
  reportID : String
  fightID : Nat
  percentile : Option ℚ
  spec : Option String
  class_ : Option String

/-- A reduced parse, as stored in a FightParseSet. -/
structure Parse where
  playerName : String
  percentile : Int
  spec : Option String
  class_ : Option String
  deriving DecidableEq, Repr

/-- A value of the `fightParses` mapping. -/
structure FightParseSet where
  parses : List Parse
  fightId : Nat
  fightDetails : Fight
  deriving DecidableEq, Repr

/-- The body of the report response. -/
structure ReportJson where
  title : Option String
  fights : List Fight
  exportedCharacters : Option (List ExportedCharacter)
  friendlies : Option (List Friendly)

/-- An HTTP response with a JSON body; `json` is read only when the response is OK. -/
structure Response (α : Type) where
  status : Nat
  json : α

/-- The property `Response.ok`: the status is in the range 200 to 299. -/
def Response.ok {α : Type} (r : Response α) : Bool :=
  decide (200 ≤ r.status ∧ r.status ≤ 299)

/-- The remote API as seen by one call of `fetchReport`: the report response for a report
code, the parses response for (name, server, region), and the instant at which that
parses request settles (it decides which rejection `Promise.all` reports). -/
structure Api where
  report : String → Response ReportJson
  parses : String → String → String → Response (List RawParse)
  settledAt : String → String → String → Nat

/-- The state of the component (the `useState` cells and the constant target zone). -/
structure ViewState where
  reportCode : String
  loading : Bool
  error : Option String
  players : List Player
  fightParses : JSObject FightParseSet
  selectedFight : Option String
  reportTitle : String
  targetZone : String
  deriving DecidableEq, Repr

/-! ## fetchReport -/

/-- The element `split(sep)[1]` of a split, absent when there is no second piece. -/
def secondPiece (s : String) (sep : Char) : Option String :=
  (split s sep).get? 1

/-- The callback of `exportedPlayers.map`: the player with the class and spec of the first
friendly of the same name and server. -/
def enhancePlayer (friendlies : List Friendly) (player : ExportedCharacter) : Player :=
  let friendly := friendlies.find? (fun f => f.name = player.name ∧ f.server = player.server)
  { id := player.id
    name := player.name
    server := player.server
    region := player.region
    class_ := orNull (friendly.bind (fun f => f.type))
    spec := orNull (friendly.bind (fun f => f.icon.bind (fun icon => secondPiece icon '-'))) }

/-- The callback of `data.map` in `fetchParsesForPlayer`: the parse with `playerName` set
to the name of the player it was fetched for. -/
def tagParse (name : String) (parse : RawParse) : PlayerParse :=
  { playerName := name
    reportID := parse.reportID
    fightID := parse.fightID
    percentile := parse.percentile
    spec := parse.spec
    class_ := parse.class_ }

/-- The rejection `Promise.all` reports: that of the failed request settling first (the
earlier player on equal instants), none when every response is OK. -/
def firstRejected (api : Api) (players : List Player) : Option Player :=
  (players.filter (fun p => !(api.parses p.name p.server p.region).ok)).foldl
    (fun best p =>
      match best with
      | none => some p
      | some b =>
        if api.settledAt p.name p.server p.region < api.settledAt b.name b.server b.region
        then some p else some b)
    none

/-- The array `allParses`: the tagged parses of every player, flattened in roster order. -/
def flattenParses (api : Api) (players : List Player) : List PlayerParse :=
  (players.map (fun p => (api.parses p.name p.server p.region).json.map (tagParse p.name))).flatten

/-- The callback of `matchingParses.map`: the percentile is
`Math.floor(parse.percentile || 0)`. -/
def reduceParse (parse : PlayerParse) : Parse :=
  { playerName := parse.playerName
    percentile := (parse.percentile.getD 0).floor
    spec := parse.spec
    class_ := parse.class_ }

/-- The array `matchingParses` of a fight. -/
def matchingParses (reportCode : String) (allParses : List PlayerParse) (fightId : Nat) :
    List PlayerParse :=
  allParses.filter (fun parse => parse.reportID = reportCode ∧ parse.fightID = fightId)

/-- The comparator `(a, b) => b.percentile - a.percentile`. -/
def byPercentileDesc (a b : Parse) : Int :=
  b.percentile - a.percentile

/-- The object stored for a raid fight. -/
def buildFightParseSet (reportCode : String) (allParses : List PlayerParse) (fight : Fight) :
    FightParseSet :=
  let fightId := fight.id
  let playerParseObjects := (matchingParses reportCode allParses fightId).map reduceParse
  { parses := arraySort byPercentileDesc playerParseObjects
    fightId := fightId
    fightDetails := fight }

/-- The guard `fight.boss && fight.boss !== 0 && fight.zoneName === targetZone`. -/
def isRaidFight (targetZone : String) (fight : Fight) : Bool :=
  decide (fight.boss ≠ 0 ∧ fight.zoneName = targetZone)

/-- The key of a fight: `fight.name || "Fight " + fightId`. -/
def fightKey (fight : Fight) : String :=
  orElse fight.name ("Fight " ++ toString fight.id)

/-- The callback of `forEach` in "group parses by fight": a raid fight is stored under its
key, any other fight is skipped. -/
def storeFight (reportCode targetZone : String) (allParses : List PlayerParse)
    (fightPlayerParses : JSObject FightParseSet) (fight : Fight) : JSObject FightParseSet :=
  if isRaidFight targetZone fight then
    fightPlayerParses.set (fightKey fight) (buildFightParseSet reportCode allParses fight)
  else fightPlayerParses

/-- The loop "group parses by fight": the object `fightPlayerParses` after the `forEach`. -/
def groupParsesByFight (reportCode targetZone : String) (fights : List Fight)
    (allParses : List PlayerParse) : JSObject FightParseSet :=
  fights.foldl (storeFight reportCode targetZone allParses) []

/-- The function `fetchReport`: the state once the call has completed, from the state at
the call.  Every `throw` is followed here by its `catch` (`setError`) and `finally`
(`setLoading(false)`).  The report body always carries its `fights` array, so the unused
`raidFights` filter of the source has no effect and is left out. -/
def fetchReport (api : Api) (s0 : ViewState) : ViewState :=
  let reportCode := s0.reportCode
  let targetZone := s0.targetZone
  let s1 := { s0 with loading := true, error := none }
  let reportResponse := api.report reportCode
  if !reportResponse.ok then
    { s1 with
      error := some ("HTTP error while fetching report: " ++ toString reportResponse.status)
      loading := false }
  else
    let reportJson := reportResponse.json
    let s2 := { s1 with reportTitle := orElse reportJson.title "Warcraft Logs Report" }
    let exportedPlayers := reportJson.exportedCharacters.getD []
    if exportedPlayers.length = 0 then
      { s2 with error := some "No players found in exportedCharacters.", loading := false }
    else
      let enhancedPlayers := exportedPlayers.map (enhancePlayer (reportJson.friendlies.getD []))
      let s3 := { s2 with players := enhancedPlayers }
      match firstRejected api enhancedPlayers with
      | some p =>
        { s3 with
          error := some ("HTTP error for " ++ p.name ++ ": " ++
            toString (api.parses p.name p.server p.region).status)
          loading := false }
      | none =>
        let allParses := flattenParses api enhancedPlayers
        let fightPlayerParses :=
          groupParsesByFight reportCode targetZone reportJson.fights allParses
        let s4 := { s3 with fightParses := fightPlayerParses }
        let fightNames := fightPlayerParses.keys
        let s5 :=
          if fightNames.length > 0 then { s4 with selectedFight := fightNames.head? } else s4
        { s5 with loading := false }

/-! ## calculatePlayerAverages -/

/-- A value of the `playerParses` dictionary. -/
structure PlayerEntry where
  playerName : String
  class_ : Option String
  spec : Option String
  parses : List Int
  deriving DecidableEq, Repr

/-- An element of the result of `calculatePlayerAverages`. -/
structure PlayerAverage where
  playerName : String
  class_ : Option String
  spec : Option String
  parses : List Int
  averagePercentile : Int
  totalParses : Nat
  deriving DecidableEq, Repr

/-- The body of the inner `forEach`: create the player's entry when `playerParses` has
none, then push the percentile. -/
def collectParse (playerParses : JSObject PlayerEntry) (parse : Parse) : JSObject PlayerEntry :=
  let created :=
    if (playerParses.get parse.playerName).isNone then
      playerParses.set parse.playerName
        { playerName := parse.playerName
          class_ := parse.class_
          spec := parse.spec
          parses := [] }
    else playerParses
  created.modify parse.playerName (fun e => { e with parses := e.parses ++ [parse.percentile] })

/-- The dictionary `playerParses` after both `forEach` loops. -/
def collectPlayerParses (fightParses : JSObject FightParseSet) : JSObject PlayerEntry :=
  fightParses.values.foldl (fun playerParses fight => fight.parses.foldl collectParse playerParses)
    []

/-- The callback of `Object.values(playerParses).map`. -/
def toPlayerAverage (player : PlayerEntry) : PlayerAverage :=
  let average := mkRat (player.parses.foldl (fun sum val => sum + val) 0) player.parses.length
  { playerName := player.playerName
    class_ := player.class_
    spec := player.spec
    parses := player.parses
    averagePercentile := mathRound average
    totalParses := player.parses.length }

/-- The comparator `(a, b) => b.averagePercentile - a.averagePercentile`. -/
def byAverageDesc (a b : PlayerAverage) : Int :=
  b.averagePercentile - a.averagePercentile

/-- The function `calculatePlayerAverages`, of the `fightParses` state. -/
def calculatePlayerAverages (fightParses : JSObject FightParseSet) : List PlayerAverage :=
  if fightParses.keys.length = 0 then []
  else
    let playerParses := collectPlayerParses fightParses
    let playerAverages := playerParses.values.map toPlayerAverage
    arraySort byAverageDesc playerAverages

/-! ## Specification-side vocabulary -/

/-- The parses in the order the two nested `forEach` loops visit them: the FightParseSets
in mapping order, each set's parses in rank order. -/
def visitedParses (fightParses : JSObject FightParseSet) : List Parse :=
  fightParses.values.flatMap (fun fight => fight.parses)

/-- The percentiles of a player over all FightParseSets, in visiting order. -/
def percentilesOf (fightParses : JSObject FightParseSet) (name : String) : List Int :=
  ((visitedParses fightParses).filter (fun p => p.playerName = name)).map (fun p => p.percentile)

/-- The number of FightParseSets in which a player appears. -/
def fightsWith (fightParses : JSObject FightParseSet) (name : String) : Nat :=
  (fightParses.values.filter (fun fight => fight.parses.any (fun p => p.playerName = name))).length

/-- The distinct elements of a list, each at its first occurrence. -/
def firstOccurrences : List String → List String
  | [] => []
  | a :: l => a :: (firstOccurrences l).filter (fun b => b ≠ a)

/-- The player names in the order in which they are first visited. -/
def firstVisited (fightParses : JSObject FightParseSet) : List String :=
  firstOccurrences ((visitedParses fightParses).map (fun p => p.playerName))

/-- The entry the loops leave for a player name: class and spec of the first parse visited
for the name, and the percentiles of the name in visiting order. -/
def entryOf (visited : List Parse) (name : String) : PlayerEntry :=
  let mine := visited.filter (fun p => p.playerName = name)
  { playerName := name
    class_ := mine.head?.bind (fun p => p.class_)
    spec := mine.head?.bind (fun p => p.spec)
    parses := mine.map (fun p => p.percentile) }

/-! ## Sample data -/

/-- A raid fight of the sample zone. -/
def sampleFight (id : Nat) (name : String) : Fight :=
  { id := id, name := some name, boss := 3009, zoneName := "Liberation of Undermine",
    start := 0, end_ := 65000, kill := true }

/-- Two raid fights and three players with percentiles 80 and 60, 40 and 90, 70 and 70. -/
def sampleParses : JSObject FightParseSet :=
  [("Vexie",
      { parses := [⟨"Player1", 80, some "Fire", some "Mage"⟩,
          ⟨"Player3", 70, some "Holy", some "Priest"⟩,
          ⟨"Player2", 40, some "Fury", some "Warrior"⟩],
        fightId := 1, fightDetails := sampleFight 1 "Vexie" }),
   ("Cauldron",
      { parses := [⟨"Player2", 90, some "Fury", some "Warrior"⟩,
          ⟨"Player3", 70, some "Holy", some "Priest"⟩,
          ⟨"Player1", 60, some "Fire", some "Mage"⟩],
        fightId := 2, fightDetails := sampleFight 2 "Cauldron" })]

/-- One FightParseSet holding two parses with the same player name. -/
def duplicateParses : JSObject FightParseSet :=
  [("Vexie",
      { parses := [⟨"Al", 90, some "Fire", some "Mage"⟩, ⟨"Al", 50, some "Holy", some "Priest"⟩],
        fightId := 1, fightDetails := sampleFight 1 "Vexie" })]

/-- A player who is visited first with spec "Fire" and last with spec "Frost". -/
def respecParses : JSObject FightParseSet :=
  [("Vexie",
      { parses := [⟨"Al", 90, some "Fire", some "Mage"⟩],
        fightId := 1, fightDetails := sampleFight 1 "Vexie" }),
   ("Cauldron",
      { parses := [⟨"Al", 50, some "Frost", some "Mage"⟩],
        fightId := 2, fightDetails := sampleFight 2 "Cauldron" })]

/-- The roster `enhancedPlayers` of a report body. -/
def enhancedRoster (reportJson : ReportJson) : List Player :=
  (reportJson.exportedCharacters.getD []).map (enhancePlayer (reportJson.friendlies.getD []))

/-- A state showing the data of an earlier report. -/
def sampleState : ViewState :=
  { reportCode := "abc"
    loading := false
    error := none
    players := [⟨7, "Old", "Ravencrest", "EU", some "Druid", some "Balance"⟩]
    fightParses := sampleParses
    selectedFight := some "Vexie"
    reportTitle := "Earlier report"
    targetZone := "Liberation of Undermine" }

/-- A report response that is not OK. -/
def notFoundApi : Api :=
  { report := fun _ => ⟨404, ⟨none, [], none, none⟩⟩
    parses := fun _ _ _ => ⟨200, []⟩
    settledAt := fun _ _ _ => 0 }

/-- An OK report response whose `exportedCharacters` is empty. -/
def noPlayersApi : Api :=
  { report := fun _ => ⟨200, ⟨some "New report", [], some [], none⟩⟩
    parses := fun _ _ _ => ⟨200, []⟩
    settledAt := fun _ _ _ => 0 }

/-- An OK report with two players, the parses request of the second answering 500. -/
def failingPlayerApi : Api :=
  { report := fun _ =>
      ⟨200, ⟨some "New report", [sampleFight 1 "Vexie"],
        some [⟨1, "Al", "Ravencrest", "EU"⟩, ⟨2, "Bo", "Ravencrest", "EU"⟩],
        some [⟨"Al", "Ravencrest", some "Mage", some "Mage-Fire"⟩]⟩⟩
    parses := fun name _ _ => if name = "Bo" then ⟨500, []⟩ else ⟨200, []⟩
    settledAt := fun _ _ _ => 0 }

/-- An OK report in which the boss "Vexie" was pulled twice (fights 1 and 2) and "Cauldron"
once, with the parses of two players. -/
def repeatApi : Api :=
  { report := fun _ =>
      ⟨200, ⟨some "New report",
        [sampleFight 1 "Vexie", sampleFight 2 "Vexie", sampleFight 3 "Cauldron"],
        some [⟨1, "Al", "Ravencrest", "EU"⟩, ⟨2, "Bo", "Ravencrest", "EU"⟩],
        some [⟨"Al", "Ravencrest", some "Mage", some "Mage-Fire"⟩]⟩⟩
    parses := fun name _ _ =>
      if name = "Al" then
        ⟨200, [⟨"abc", 1, some (mkRat 175 2), some "Fire", some "Mage"⟩,
          ⟨"abc", 2, some (mkRat 121 2), some "Fire", some "Mage"⟩,
          ⟨"abc", 3, none, some "Fire", some "Mage"⟩,
          ⟨"other", 3, some 99, some "Fire", some "Mage"⟩]⟩
      else
        ⟨200, [⟨"abc", 2, some 95, some "Holy", some "Priest"⟩,
          ⟨"abc", 3, some (mkRat 81 4), some "Holy", some "Priest"⟩]⟩
    settledAt := fun _ _ _ => 0 }

/-- An OK report with one raid fight and two exported characters named "Al" on different
servers, each with a parse for that fight. -/
def namesakeApi : Api :=
  { report := fun _ =>
      ⟨200, ⟨some "New report", [sampleFight 1 "Vexie"],
        some [⟨1, "Al", "Ravencrest", "EU"⟩, ⟨2, "Al", "Silvermoon", "EU"⟩], none⟩⟩
    parses := fun _ server _ =>
      if server = "Ravencrest" then ⟨200, [⟨"abc", 1, some 90, some "Fire", some "Mage"⟩]⟩
      else ⟨200, [⟨"abc", 1, some 50, some "Holy", some "Priest"⟩]⟩
    settledAt := fun _ _ _ => 0 }

/-! ## Theorems: presentation helpers -/

theorem padStart_two_digits (r : Nat) (h : r < 60) :
    padStart (toString r) 2 '0' = twoDigits r := by
  interval_cases r <;> decide

/-- C8, as stated, fails at 0 ms: the source returns "00:00", the stated format and the
stated example give "0:00"; `null` and `NaN` give "00:00" as well. -/
theorem formatTime_zero_counterexample :
    formatTime (.ms 0) = "00:00" ∧ formatTimeSpec 0 = "0:00" ∧
      formatTime (.ms 0) ≠ formatTimeSpec 0 ∧
      formatTime .null ≠ "0:00" ∧ formatTime .nan ≠ "0:00" := by
  decide

/-- C8 (amended): for every positive integer duration, `formatTime` is the decimal of
`floor(ms/60000)`, a colon, and `floor(ms/1000) mod 60` on two digits; 65000 ms gives
"1:05" and 3600000 ms gives "60:00"; 0 ms, `null` and `NaN` give "00:00". -/
theorem formatTime_spec (ms : Nat) (h : 0 < ms) :
    formatTime (.ms ms) = formatTimeSpec ms ∧
      formatTime (.ms 65000) = "1:05" ∧ formatTime (.ms 3600000) = "60:00" ∧
      formatTime (.ms 0) = "00:00" ∧ formatTime .null = "00:00" ∧
      formatTime .nan = "00:00" := by
  refine ⟨?_, by decide, by decide, by decide, by decide, by decide⟩
  have h0 : ms ≠ 0 := Nat.pos_iff_ne_zero.mp h
  simp only [formatTime, formatTimeSpec, h0, if_false]
  rw [padStart_two_digits _ (Nat.mod_lt _ (by decide)), Nat.div_div_eq_div_mul]

theorem formatTime_spec_witness :
    0 < 125000 ∧ formatTime (.ms 125000) = "2:05" :=
  ⟨by decide, (formatTime_spec 125000 (by decide)).1.trans (by decide)⟩

/-- C9, as stated, fails: the output does not determine the tier, since the rare branch
and the common branch both return "secondary". -/
theorem badgeVariant_not_injective_counterexample :
    getPercentileBadgeVariant 50 = getPercentileBadgeVariant 10 ∧ tierOf 50 = .rare ∧
      tierOf 10 = .common ∧ tierOf 50 ≠ tierOf 10 := by
  decide

/-- C9 (amended): the output of `getPercentileBadgeVariant` is the variant of the
percentile's tier, the tiers having inclusive lower bounds 95, 75, 50, 25 ("destructive"
exactly from 95, "outline" exactly on 75..94, "default" exactly on 25..49, "secondary"
on 50..74 and below 25); equal outputs mean equal tiers except that rare and common share
"secondary"; and a strictly higher percentile never has a strictly lower tier. -/
theorem badgeVariant_spec (p q : Int) :
    getPercentileBadgeVariant p = (tierOf p).variant ∧
      (getPercentileBadgeVariant p = "destructive" ↔ 95 ≤ p) ∧
      (getPercentileBadgeVariant p = "outline" ↔ 75 ≤ p ∧ p < 95) ∧
      (getPercentileBadgeVariant p = "secondary" ↔ (50 ≤ p ∧ p < 75) ∨ p < 25) ∧
      (getPercentileBadgeVariant p = "default" ↔ 25 ≤ p ∧ p < 50) ∧
      (getPercentileBadgeVariant p = getPercentileBadgeVariant q →
        tierOf p = tierOf q ∨ (tierOf p = .rare ∧ tierOf q = .common) ∨
          (tierOf p = .common ∧ tierOf q = .rare)) ∧
      (p < q → (tierOf p).rank ≤ (tierOf q).rank) := by
  have hp : getPercentileBadgeVariant p = (tierOf p).variant := by
    unfold getPercentileBadgeVariant tierOf
    split_ifs <;> rfl
  have hq : getPercentileBadgeVariant q = (tierOf q).variant := by
    unfold getPercentileBadgeVariant tierOf
    split_ifs <;> rfl
  refine ⟨hp, ?_, ?_, ?_, ?_, ?_, ?_⟩
  · unfold getPercentileBadgeVariant
    split_ifs <;> simp <;> omega
  · unfold getPercentileBadgeVariant
    split_ifs <;> simp <;> omega
  · unfold getPercentileBadgeVariant
    split_ifs <;> simp <;> omega
  · unfold getPercentileBadgeVariant
    split_ifs <;> simp <;> omega
  · rw [hp, hq]
    cases tierOf p <;> cases tierOf q <;> simp [Tier.variant]
  · intro hpq
    unfold tierOf
    split_ifs <;> simp [Tier.rank] <;> omega

theorem badgeVariant_spec_witness :
    (74 : Int) < 75 ∧ (tierOf 74).rank ≤ (tierOf 75).rank ∧
      getPercentileBadgeVariant 75 = "outline" :=
  ⟨by decide, (badgeVariant_spec 74 75).2.2.2.2.2.2 (by decide),
    ((badgeVariant_spec 75 75).2.2.1).2 (by decide)⟩

theorem lookup_eq_none_of_not_mem {β : Type} (c : String) (l : List (String × β))
    (h : c ∉ l.map Prod.fst) : l.lookup c = none := by
  induction l with
  | nil => rfl
  | cons kv l ih =>
    obtain ⟨k, v⟩ := kv
    simp only [List.map_cons, List.mem_cons, not_or] at h
    have hk : (c == k) = false := by simpa using h.1
    simp only [List.lookup, hk]
    exact ih h.2

theorem lookup_classColors_of_not_mem (c : String)
    (h : c ∉ classColors.map Prod.fst) : classColors.lookup c = none :=
  lookup_eq_none_of_not_mem c classColors h

/-- C10, as stated, fails: "NPC" (and "Pet") is a string other than the 13 known classes
and `getClassColor` returns "#999999" for it, not the gray default "#888888". -/
theorem getClassColor_npc_counterexample :
    "NPC" ∉ knownClasses ∧ getClassColor (some "NPC") = "#999999" ∧
      getClassColor (some "NPC") ≠ "#888888" := by
  decide

/-- C10 (amended): for a class name that is `null` or a string that is not a key of the
lookup table (the 13 known classes, "NPC" and "Pet"), `getClassColor` returns the gray
default "#888888"; for each of the 13 known classes it returns the hex string the table
holds for it; for "NPC" and "Pet" it returns "#999999". -/
theorem getClassColor_spec (className : Option String)
    (h : ∀ c, className = some c → c ∉ classColors.map Prod.fst) :
    getClassColor className = "#888888" ∧
      (∀ c ∈ knownClasses, classColors.lookup c = some (getClassColor (some c))) ∧
      getClassColor (some "NPC") = "#999999" ∧ getClassColor (some "Pet") = "#999999" := by
  refine ⟨?_, by decide, by decide, by decide⟩
  cases className with
  | none => decide
  | some c =>
    simp only [getClassColor, propertyKey, lookup_classColors_of_not_mem c (h c rfl), orElse]

theorem getClassColor_spec_witness :
    getClassColor (some "Unknown") = "#888888" ∧ getClassColor none = "#888888" ∧
      getClassColor (some "Mage") = "#3FC7EB" :=
  ⟨(getClassColor_spec (some "Unknown") (by
      intro c hc
      cases hc
      decide)).1,
    (getClassColor_spec none (by
      intro c hc
      cases hc)).1, by decide⟩

/-! ## Theorems: the stable sort -/

theorem orderedInsertBy_perm {α : Type} (cmp : α → α → Int) (a : α) (l : List α) :
    (orderedInsertBy cmp a l).Perm (a :: l) := by
  induction l with
  | nil => exact List.Perm.refl _
  | cons b l ih =>
    unfold orderedInsertBy
    split_ifs
    · exact List.Perm.refl _
    · exact (List.Perm.cons b ih).trans (List.Perm.swap a b l)

theorem arraySort_perm {α : Type} (cmp : α → α → Int) (l : List α) :
    (arraySort cmp l).Perm l := by
  induction l with
  | nil => exact List.Perm.refl _
  | cons a l ih =>
    unfold arraySort
    exact (orderedInsertBy_perm cmp a _).trans (List.Perm.cons a ih)

theorem orderedInsertBy_sorted {α : Type} (cmp : α → α → Int) (key : α → Int)
    (hcmp : ∀ a b, cmp a b = key b - key a) (a : α) (l : List α)
    (hl : l.Pairwise (fun x y => key y ≤ key x)) :
    (orderedInsertBy cmp a l).Pairwise (fun x y => key y ≤ key x) := by
  induction l with
  | nil => simp [orderedInsertBy]
  | cons b l ih =>
    have hb := List.pairwise_cons.mp hl
    unfold orderedInsertBy
    split_ifs with h
    · rw [hcmp] at h
      refine List.pairwise_cons.mpr ⟨?_, hl⟩
      intro y hy
      rcases List.mem_cons.mp hy with rfl | hy
      · omega
      · have := hb.1 y hy
        omega
    · rw [hcmp] at h
      refine List.pairwise_cons.mpr ⟨?_, ih hb.2⟩
      intro y hy
      rcases List.mem_cons.mp ((orderedInsertBy_perm cmp a l).subset hy) with rfl | hy
      · omega
      · exact hb.1 y hy

theorem arraySort_sorted {α : Type} (cmp : α → α → Int) (key : α → Int)
    (hcmp : ∀ a b, cmp a b = key b - key a) (l : List α) :
    (arraySort cmp l).Pairwise (fun x y => key y ≤ key x) := by
  induction l with
  | nil => simp [arraySort]
  | cons a l ih =>
    unfold arraySort
    exact orderedInsertBy_sorted cmp key hcmp a _ ih

theorem orderedInsertBy_filter {α : Type} (cmp : α → α → Int) (key : α → Int)
    (hcmp : ∀ a b, cmp a b = key b - key a) (v : Int) (a : α) (l : List α) :
    (orderedInsertBy cmp a l).filter (fun x => key x = v) =
      (a :: l).filter (fun x => key x = v) := by
  induction l with
  | nil => simp [orderedInsertBy]
  | cons b l ih =>
    unfold orderedInsertBy
    split_ifs with h
    · rfl
    · rw [hcmp] at h
      rw [List.filter_cons, ih]
      by_cases hb : key b = v
      · have ha : ¬ key a = v := by omega
        simp [List.filter_cons, hb, ha]
      · simp [List.filter_cons, hb]

theorem arraySort_filter {α : Type} (cmp : α → α → Int) (key : α → Int)
    (hcmp : ∀ a b, cmp a b = key b - key a) (v : Int) (l : List α) :
    (arraySort cmp l).filter (fun x => key x = v) = l.filter (fun x => key x = v) := by
  induction l with
  | nil => simp [arraySort]
  | cons a l ih =>
    unfold arraySort
    rw [orderedInsertBy_filter cmp key hcmp, List.filter_cons, List.filter_cons, ih]

/-- C6: the parses stored for a fight are a permutation of the reduced matched parses, are
non-increasing by percentile, and for every percentile value the parses of that value
stand in the order they had among the matched parses of the flattened collection. -/
theorem fightParseSet_sorted_stable (reportCode : String) (allParses : List PlayerParse)
    (fight : Fight) :
    (buildFightParseSet reportCode allParses fight).parses.Perm
        ((matchingParses reportCode allParses fight.id).map reduceParse) ∧
      (buildFightParseSet reportCode allParses fight).parses.Pairwise
        (fun a b => b.percentile ≤ a.percentile) ∧
      ∀ v : Int,
        (buildFightParseSet reportCode allParses fight).parses.filter
            (fun p => p.percentile = v) =
          ((matchingParses reportCode allParses fight.id).map reduceParse).filter
            (fun p => p.percentile = v) :=
  ⟨arraySort_perm _ _,
    arraySort_sorted byPercentileDesc (fun p => p.percentile) (fun _ _ => rfl) _,
    fun v => arraySort_filter byPercentileDesc (fun p => p.percentile) (fun _ _ => rfl) v _⟩

/-! ## Theorems: dictionaries -/

theorem firstOccurrences_append_singleton (l : List String) (a : String) :
    firstOccurrences (l ++ [a]) =
      if a ∈ l then firstOccurrences l else firstOccurrences l ++ [a] := by
  induction l with
  | nil => simp [firstOccurrences]
  | cons b l ih =>
    rw [List.cons_append, firstOccurrences, firstOccurrences, ih]
    by_cases hab : a = b
    · subst hab
      by_cases hal : a ∈ l
      · simp [hal]
      · simp [hal, List.filter_append]
    · by_cases hal : a ∈ l
      · simp [hal]
      · simp [hal, hab, List.filter_append]

theorem mem_firstOccurrences (l : List String) (a : String) :
    a ∈ firstOccurrences l ↔ a ∈ l := by
  induction l with
  | nil => simp [firstOccurrences]
  | cons b l ih =>
    simp only [firstOccurrences, List.mem_cons, List.mem_filter, ih]
    by_cases hab : a = b
    · simp [hab]
    · simp [hab]

theorem nodup_firstOccurrences (l : List String) : (firstOccurrences l).Nodup := by
  induction l with
  | nil => simp [firstOccurrences]
  | cons b l ih =>
    simp only [firstOccurrences]
    refine List.nodup_cons.mpr ⟨?_, ih.filter _⟩
    simp [List.mem_filter]

theorem get_map_entries {β : Type} (f : String → β) (ns : List String) (k : String) :
    JSObject.get (ns.map (fun n => (n, f n))) k = if k ∈ ns then some (f k) else none := by
  induction ns with
  | nil => simp [JSObject.get, List.lookup]
  | cons n ns ih =>
    simp only [JSObject.get] at ih
    simp only [JSObject.get, List.map_cons, List.lookup]
    by_cases hk : k = n
    · subst hk
      simp
    · have hb : (k == n) = false := by simpa using hk
      simp [hb, ih, hk]

theorem set_of_not_mem {β : Type} (obj : JSObject β) (k : String) (v : β)
    (h : k ∉ obj.keys) : obj.set k v = obj ++ [(k, v)] := by
  induction obj with
  | nil => rfl
  | cons kv obj ih =>
    obtain ⟨k0, v0⟩ := kv
    simp only [JSObject.keys, List.map_cons, List.mem_cons, not_or] at h
    have h0 : ¬ k0 = k := fun e => h.1 e.symm
    simp only [JSObject.set, h0, if_false, List.cons_append]
    rw [ih h.2]

theorem modify_map_entries {β : Type} (f : String → β) (g : β → β) (ns : List String)
    (k : String) :
    JSObject.modify (ns.map (fun n => (n, f n))) k g =
      ns.map (fun n => (n, if n = k then g (f n) else f n)) := by
  simp only [JSObject.modify, List.map_map]
  apply List.map_congr_left
  intro n _
  by_cases h : n = k <;> simp [h]

theorem entryOf_append_singleton (vs : List Parse) (p : Parse) (n : String) :
    entryOf (vs ++ [p]) n =
      if p.playerName = n then
        (if n ∈ vs.map (fun q => q.playerName) then
          { entryOf vs n with parses := (entryOf vs n).parses ++ [p.percentile] }
        else { playerName := n, class_ := p.class_, spec := p.spec, parses := [p.percentile] })
      else entryOf vs n := by
  by_cases hp : p.playerName = n
  · by_cases hn : n ∈ vs.map (fun q => q.playerName)
    · obtain ⟨q, hq, hqn⟩ := List.mem_map.mp hn
      have hne : vs.filter (fun p => decide (p.playerName = n)) ≠ [] := by
        intro h
        have : q ∈ vs.filter (fun p => decide (p.playerName = n)) := by
          simp [List.mem_filter, hq, hqn]
        rw [h] at this
        exact List.not_mem_nil _ this
      obtain ⟨x, xs, hx⟩ := List.exists_cons_of_ne_nil hne
      simp [entryOf, hp, hn, List.filter_append, hx]
    · have hnil : vs.filter (fun p => decide (p.playerName = n)) = [] := by
        rw [List.filter_eq_nil_iff]
        intro q hq
        simp only [decide_eq_true_eq]
        intro hqn
        exact hn (List.mem_map.mpr ⟨q, hq, hqn⟩)
      simp [entryOf, hp, hn, List.filter_append, hnil]
  · simp [entryOf, hp, List.filter_append]

/-! ## Theorems: calculatePlayerAverages -/

theorem foldl_collectParse (vs : List Parse) :
    vs.foldl collectParse [] =
      (firstOccurrences (vs.map (fun p => p.playerName))).map (fun n => (n, entryOf vs n)) := by
  induction vs using List.reverseRecOn with
  | nil => rfl
  | append_singleton vs p ih =>
    rw [List.foldl_append, List.foldl_cons, List.foldl_nil, ih, List.map_append, List.map_cons,
      List.map_nil, firstOccurrences_append_singleton]
    unfold collectParse
    rw [get_map_entries]
    by_cases hk : p.playerName ∈ vs.map (fun p => p.playerName)
    · have hk2 : p.playerName ∈ firstOccurrences (vs.map (fun p => p.playerName)) :=
        (mem_firstOccurrences _ _).mpr hk
      simp only [hk, hk2, if_true, Option.isNone_some, Bool.false_eq_true, if_false]
      rw [modify_map_entries]
      apply List.map_congr_left
      intro n hn
      rw [entryOf_append_singleton]
      by_cases hnp : n = p.playerName
      · subst hnp
        simp [hk]
      · have hpn : ¬ p.playerName = n := fun e => hnp e.symm
        simp [hnp, hpn]
    · have hk2 : p.playerName ∉ firstOccurrences (vs.map (fun p => p.playerName)) :=
        fun h => hk ((mem_firstOccurrences _ _).mp h)
      simp only [hk, hk2, if_false, Option.isNone_none, if_true]
      rw [set_of_not_mem _ _ _ (by simpa [JSObject.keys, List.map_map] using hk2)]
      simp only [JSObject.modify, List.map_append, List.map_map, List.map_cons, List.map_nil,
        if_true]
      congr 1
      · apply List.map_congr_left
        intro n hn
        have hnp : ¬ n = p.playerName := fun e => hk2 (e ▸ hn)
        have hpn : ¬ p.playerName = n := fun e => hnp e.symm
        simp [hnp, entryOf_append_singleton, hpn]
      · simp [entryOf_append_singleton, hk]

theorem collectPlayerParses_eq (fightParses : JSObject FightParseSet) :
    collectPlayerParses fightParses =
      (firstVisited fightParses).map (fun n => (n, entryOf (visitedParses fightParses) n)) := by
  have h : ∀ (fs : List FightParseSet) (acc : JSObject PlayerEntry),
      fs.foldl (fun playerParses fight => fight.parses.foldl collectParse playerParses) acc =
        (fs.flatMap (fun fight => fight.parses)).foldl collectParse acc := by
    intro fs
    induction fs with
    | nil => intro acc; rfl
    | cons f fs ih =>
      intro acc
      rw [List.foldl_cons, ih, List.flatMap_cons, List.foldl_append]
  unfold collectPlayerParses firstVisited visitedParses
  rw [h, foldl_collectParse]

theorem mathRound_eq_floor (x : ℚ) : mathRound x = ⌊x + 1 / 2⌋ := by
  have hden : (x.den : ℚ) ≠ 0 := by exact_mod_cast x.den_pos.ne.symm
  have hx : x + 1 / 2 = (((2 * x.num + x.den : ℤ) : ℚ)) / (((2 * x.den : ℕ) : ℚ)) := by
    nth_rewrite 1 [← Rat.num_div_den x]
    push_cast
    field_simp
    ring
  rw [hx, Rat.floor_intCast_div_natCast]
  simp [mathRound]

theorem round_bounds (S a : Int) (n : Nat) (hn : 0 < n)
    (ha : a = ⌊(S : ℚ) / (n : ℚ) + 1 / 2⌋) :
    (2 * a - 1) * (n : Int) ≤ 2 * S ∧ 2 * S < (2 * a + 1) * (n : Int) := by
  have hq0 : (0 : ℚ) < (n : ℚ) := by exact_mod_cast hn
  have h1 := Int.floor_le ((S : ℚ) / (n : ℚ) + 1 / 2)
  have h2 := Int.lt_floor_add_one ((S : ℚ) / (n : ℚ) + 1 / 2)
  rw [← ha] at h1 h2
  have h3 : (a : ℚ) - 1 / 2 ≤ (S : ℚ) / (n : ℚ) := by linarith
  have h4 : (S : ℚ) / (n : ℚ) < (a : ℚ) + 1 / 2 := by linarith
  rw [le_div_iff₀ hq0] at h3
  rw [div_lt_iff₀ hq0] at h4
  constructor
  · have h5 : (((2 * a - 1) * (n : Int) : Int) : ℚ) ≤ ((2 * S : Int) : ℚ) := by
      push_cast
      linarith
    exact_mod_cast h5
  · have h5 : (((2 * S : Int)) : ℚ) < (((2 * a + 1) * (n : Int) : Int) : ℚ) := by
      push_cast
      linarith
    exact_mod_cast h5

theorem foldl_add_eq_sum (l : List Int) (a : Int) :
    l.foldl (fun sum val => sum + val) a = a + l.sum := by
  induction l generalizing a with
  | nil => simp
  | cons b l ih => simp [List.foldl_cons, ih, add_assoc]

theorem calculatePlayerAverages_eq (fightParses : JSObject FightParseSet) :
    calculatePlayerAverages fightParses =
      arraySort byAverageDesc
        ((firstVisited fightParses).map
          (fun n => toPlayerAverage (entryOf (visitedParses fightParses) n))) := by
  unfold calculatePlayerAverages
  split_ifs with h
  · have h0 : fightParses = [] := by
      cases fightParses with
      | nil => rfl
      | cons a l => simp [JSObject.keys] at h
    subst h0
    rfl
  · simp only [collectPlayerParses_eq, JSObject.values, List.map_map]
    rfl

theorem mem_calculatePlayerAverages (fightParses : JSObject FightParseSet) (e : PlayerAverage)
    (he : e ∈ calculatePlayerAverages fightParses) :
    e.playerName ∈ firstVisited fightParses ∧
      e = toPlayerAverage (entryOf (visitedParses fightParses) e.playerName) := by
  rw [calculatePlayerAverages_eq] at he
  have h := (arraySort_perm _ _).subset he
  obtain ⟨n, hn, rfl⟩ := List.mem_map.mp h
  exact ⟨hn, rfl⟩

theorem exists_mem_calculatePlayerAverages (fightParses : JSObject FightParseSet)
    (name : String) (h : name ∈ (visitedParses fightParses).map (fun p => p.playerName)) :
    ∃ e ∈ calculatePlayerAverages fightParses, e.playerName = name := by
  refine ⟨toPlayerAverage (entryOf (visitedParses fightParses) name), ?_, rfl⟩
  rw [calculatePlayerAverages_eq]
  apply (arraySort_perm _ _).symm.subset
  exact List.mem_map.mpr ⟨name, (mem_firstOccurrences _ _).mpr h, rfl⟩

/-- C1: for every player name occurring in the mapping, `calculatePlayerAverages` has an
entry for the name, and the `averagePercentile` of an entry for the name is the sum of
the player's percentiles over all FightParseSets divided by their number, rounded to the
nearest integer with halves up: it is `floor(sum/count + 1/2)`, the integer `a` with
`(2a - 1) count ≤ 2 sum < (2a + 1) count`. -/
theorem averagePercentile_spec (fightParses : JSObject FightParseSet) (name : String)
    (h : name ∈ (visitedParses fightParses).map (fun p => p.playerName)) :
    (∃ e ∈ calculatePlayerAverages fightParses, e.playerName = name) ∧
      ∀ e ∈ calculatePlayerAverages fightParses, e.playerName = name →
        e.averagePercentile =
            ⌊((percentilesOf fightParses name).sum : ℚ) /
              ((percentilesOf fightParses name).length : ℚ) + 1 / 2⌋ ∧
          (2 * e.averagePercentile - 1) * ((percentilesOf fightParses name).length : Int) ≤
            2 * (percentilesOf fightParses name).sum ∧
          2 * (percentilesOf fightParses name).sum <
            (2 * e.averagePercentile + 1) * ((percentilesOf fightParses name).length : Int) := by
  refine ⟨exists_mem_calculatePlayerAverages fightParses name h, ?_⟩
  intro e he hname
  have hn : 0 < (percentilesOf fightParses name).length := by
    obtain ⟨q, hq, hqn⟩ := List.mem_map.mp h
    simp only [percentilesOf, List.length_map]
    apply List.length_pos_of_mem (a := q)
    simp [List.mem_filter, hq, hqn]
  have hav : e.averagePercentile =
      ⌊((percentilesOf fightParses name).sum : ℚ) /
        ((percentilesOf fightParses name).length : ℚ) + 1 / 2⌋ := by
    have h2 := (mem_calculatePlayerAverages fightParses e he).2
    rw [hname] at h2
    rw [h2]
    simp only [toPlayerAverage, entryOf, mathRound_eq_floor, foldl_add_eq_sum, zero_add,
      Rat.mkRat_eq_div, percentilesOf]
  exact ⟨hav, round_bounds _ _ _ hn hav⟩

theorem averagePercentile_spec_witness :
    "Player1" ∈ (visitedParses sampleParses).map (fun p => p.playerName) ∧
      (∃ e ∈ calculatePlayerAverages sampleParses, e.playerName = "Player1") ∧
      (calculatePlayerAverages sampleParses).map (fun e => (e.playerName, e.averagePercentile)) =
        [("Player1", 70), ("Player3", 70), ("Player2", 65)] :=
  ⟨by decide, (averagePercentile_spec sampleParses "Player1" (by decide)).1, by decide⟩

theorem length_filter_flatMap_parses (name : String) (fs : List FightParseSet)
    (h : ∀ fight ∈ fs,
      (fight.parses.filter (fun p => p.playerName = name)).length ≤ 1) :
    ((fs.flatMap (fun fight => fight.parses)).filter (fun p => p.playerName = name)).length =
      (fs.filter (fun fight => fight.parses.any (fun p => p.playerName = name))).length := by
  induction fs with
  | nil => rfl
  | cons f fs ih =>
    have hf := h f (List.mem_cons_self _ _)
    have ih2 := ih (fun g hg => h g (List.mem_cons_of_mem _ hg))
    rw [List.flatMap_cons, List.filter_append, List.length_append, ih2, List.filter_cons]
    by_cases hany : f.parses.any (fun p => decide (p.playerName = name)) = true
    · have hpos : 0 < (f.parses.filter (fun p => decide (p.playerName = name))).length := by
        obtain ⟨q, hq, hqn⟩ := List.any_eq_true.mp hany
        exact List.length_pos_of_mem (List.mem_filter.mpr ⟨hq, hqn⟩)
      simp only [hany, if_true, List.length_cons]
      omega
    · have hnil : f.parses.filter (fun p => decide (p.playerName = name)) = [] := by
        rw [List.filter_eq_nil_iff]
        intro q hq hqn
        exact hany (List.any_eq_true.mpr ⟨q, hq, hqn⟩)
      simp [hany, hnil]

/-- The `totalParses` of an entry of `calculatePlayerAverages` is the length of the
player's percentile list, one element per parse visited under the name; it is the number
of FightParseSets in which the name appears only when no FightParseSet holds more than
one parse with that name. -/
theorem totalParses_eq_length (fightParses : JSObject FightParseSet) (name : String)
    (e : PlayerAverage) (he : e ∈ calculatePlayerAverages fightParses)
    (hname : e.playerName = name) :
    e.totalParses =
        ((visitedParses fightParses).filter (fun p => p.playerName = name)).length ∧
      ((∀ fight ∈ fightParses.values,
          (fight.parses.filter (fun p => p.playerName = name)).length ≤ 1) →
        e.totalParses = fightsWith fightParses name) := by
  have h2 := (mem_calculatePlayerAverages fightParses e he).2
  rw [hname] at h2
  have h3 : e.totalParses =
      ((visitedParses fightParses).filter (fun p => p.playerName = name)).length := by
    rw [h2]
    simp [toPlayerAverage, entryOf]
  refine ⟨h3, ?_⟩
  intro hone
  rw [h3]
  exact length_filter_flatMap_parses name fightParses.values hone

/-- C2 (code at the failing input): a report with one raid fight and two exported
characters named "Al" on different servers is fetched successfully and leaves one
FightParseSet holding two parses with the player name "Al"; `calculatePlayerAverages`
then gives "Al" `totalParses = 2`, while "Al" appears in one FightParseSet. -/
theorem totalParses_counts_namesake_parses :
    (fetchReport namesakeApi sampleState).error = none ∧
      (fetchReport namesakeApi sampleState).fightParses = duplicateParses ∧
      (calculatePlayerAverages duplicateParses).map (fun e => (e.playerName, e.totalParses)) =
        [("Al", 2)] ∧
      fightsWith duplicateParses "Al" = 1 := by
  decide

/-- The class and spec of an entry of `calculatePlayerAverages` are those of the first
parse visited for its player: the entry is written once, when it is created. -/
theorem classSpec_first_visited (fightParses : JSObject FightParseSet) (e : PlayerAverage)
    (he : e ∈ calculatePlayerAverages fightParses) :
    ∃ p, ((visitedParses fightParses).filter (fun p => p.playerName = e.playerName)).head? =
        some p ∧ e.class_ = p.class_ ∧ e.spec = p.spec := by
  obtain ⟨hmem, heq⟩ := mem_calculatePlayerAverages fightParses e he
  have hn : e.playerName ∈ (visitedParses fightParses).map (fun p => p.playerName) :=
    (mem_firstOccurrences _ _).mp hmem
  obtain ⟨q, hq, hqn⟩ := List.mem_map.mp hn
  have hne : (visitedParses fightParses).filter
      (fun p => decide (p.playerName = e.playerName)) ≠ [] := by
    intro h
    have : q ∈ (visitedParses fightParses).filter
        (fun p => decide (p.playerName = e.playerName)) := by
      simp [List.mem_filter, hq, hqn]
    rw [h] at this
    exact List.not_mem_nil _ this
  obtain ⟨x, xs, hx⟩ := List.exists_cons_of_ne_nil hne
  refine ⟨x, by rw [hx]; rfl, ?_, ?_⟩
  · rw [heq]
    simp [toPlayerAverage, entryOf, hx]
  · rw [heq]
    simp [toPlayerAverage, entryOf, hx]

/-- C3 (code at the failing input): the player "Al" is visited first with spec "Fire" and
last with spec "Frost"; the entry of `calculatePlayerAverages` holds "Fire", the spec of
the first parse visited, not that of the last. -/
theorem calculatePlayerAverages_keeps_first_spec :
    (calculatePlayerAverages respecParses).map (fun e => (e.playerName, e.class_, e.spec)) =
        [("Al", some "Mage", some "Fire")] ∧
      (((visitedParses respecParses).filter (fun p => p.playerName = "Al")).getLast?.map
        (fun p => p.spec)) = some (some "Frost") := by
  decide

theorem mem_firstVisited (fightParses : JSObject FightParseSet) (n : String) :
    n ∈ firstVisited fightParses ↔
      ∃ fight ∈ fightParses.values, ∃ p ∈ fight.parses, p.playerName = n := by
  unfold firstVisited visitedParses
  rw [mem_firstOccurrences]
  simp only [List.mem_map, List.mem_flatMap]
  constructor
  · rintro ⟨p, ⟨fight, hf, hp⟩, hn⟩
    exact ⟨fight, hf, p, hp, hn⟩
  · rintro ⟨fight, hf, p, hp, hn⟩
    exact ⟨p, ⟨fight, hf, hp⟩, hn⟩

/-- C7: `calculatePlayerAverages` returns one entry per distinct player name appearing in
a FightParseSet (its names are a permutation of the duplicate-free list of the names in
first-visit order; the empty sequence for the empty mapping), non-increasing by
`averagePercentile`, and the entries of any one `averagePercentile` stand in the order
in which their players were first visited. -/
theorem calculatePlayerAverages_order (fightParses : JSObject FightParseSet) :
    ((calculatePlayerAverages fightParses).map (fun e => e.playerName)).Perm
        (firstVisited fightParses) ∧
      (firstVisited fightParses).Nodup ∧
      (∀ n, n ∈ firstVisited fightParses ↔
        ∃ fight ∈ fightParses.values, ∃ p ∈ fight.parses, p.playerName = n) ∧
      calculatePlayerAverages [] = [] ∧
      (calculatePlayerAverages fightParses).Pairwise
        (fun a b => b.averagePercentile ≤ a.averagePercentile) ∧
      ∀ v : Int,
        (((calculatePlayerAverages fightParses).filter
            (fun e => e.averagePercentile = v)).map (fun e => e.playerName)).Sublist
          (firstVisited fightParses) := by
  have hnames : ((firstVisited fightParses).map
      (fun n => toPlayerAverage (entryOf (visitedParses fightParses) n))).map
        (fun e => e.playerName) = firstVisited fightParses := by
    rw [List.map_map]
    conv_rhs => rw [← List.map_id (firstVisited fightParses)]
    apply List.map_congr_left
    intro n _
    rfl
  refine ⟨?_, nodup_firstOccurrences _, mem_firstVisited fightParses, rfl, ?_, ?_⟩
  · rw [calculatePlayerAverages_eq]
    have h := (arraySort_perm byAverageDesc ((firstVisited fightParses).map
      (fun n => toPlayerAverage (entryOf (visitedParses fightParses) n)))).map
        (fun e => e.playerName)
    rw [hnames] at h
    exact h
  · rw [calculatePlayerAverages_eq]
    exact arraySort_sorted byAverageDesc (fun e => e.averagePercentile) (fun _ _ => rfl) _
  · intro v
    rw [calculatePlayerAverages_eq,
      arraySort_filter byAverageDesc (fun e => e.averagePercentile) (fun _ _ => rfl) v]
    have h := (List.filter_sublist (p := fun e : PlayerAverage => decide (e.averagePercentile = v))
      ((firstVisited fightParses).map
        (fun n => toPlayerAverage (entryOf (visitedParses fightParses) n)))).map
          (fun e => e.playerName)
    rw [hnames] at h
    exact h

/-! ## Theorems: fetchReport -/

theorem get_set {β : Type} (obj : JSObject β) (k : String) (v : β) (k1 : String) :
    (obj.set k v).get k1 = if k1 = k then some v else obj.get k1 := by
  induction obj with
  | nil =>
    by_cases h : k1 = k
    · subst h
      simp [JSObject.set, JSObject.get, List.lookup]
    · have hb : (k1 == k) = false := by simpa using h
      simp [JSObject.set, JSObject.get, List.lookup, hb, h]
  | cons kv obj ih =>
    obtain ⟨k0, v0⟩ := kv
    simp only [JSObject.get] at ih
    by_cases h0 : k0 = k
    · subst h0
      by_cases h : k1 = k0
      · subst h
        simp [JSObject.set, JSObject.get, List.lookup]
      · have hb : (k1 == k0) = false := by simpa using h
        simp [JSObject.set, JSObject.get, List.lookup, hb, h]
    · by_cases h : k1 = k0
      · subst h
        simp [JSObject.set, JSObject.get, List.lookup, h0]
      · have hb : (k1 == k0) = false := by simpa using h
        simp [JSObject.set, JSObject.get, List.lookup, hb, h0, ih]

theorem mem_keys_set {β : Type} (obj : JSObject β) (k : String) (v : β) (k1 : String)
    (h : k1 ∈ (obj.set k v).keys) : k1 = k ∨ k1 ∈ obj.keys := by
  induction obj with
  | nil => simpa [JSObject.set, JSObject.keys] using h
  | cons kv obj ih =>
    obtain ⟨k0, v0⟩ := kv
    by_cases h0 : k0 = k
    · subst h0
      simpa [JSObject.set, JSObject.keys] using h
    · simp only [JSObject.set, h0, if_false, JSObject.keys, List.map_cons, List.mem_cons] at h
      rcases h with h | h
      · exact Or.inr (by simp [JSObject.keys, h])
      · rcases ih h with h | h
        · exact Or.inl h
        · exact Or.inr (by
            simp only [JSObject.keys, List.map_cons, List.mem_cons]
            exact Or.inr h)

theorem get_foldl_storeFight (reportCode targetZone : String) (allParses : List PlayerParse)
    (k : String) (post : List Fight)
    (h : ∀ g ∈ post, isRaidFight targetZone g = true → fightKey g ≠ k)
    (acc : JSObject FightParseSet) :
    (post.foldl (storeFight reportCode targetZone allParses) acc).get k = acc.get k := by
  induction post generalizing acc with
  | nil => rfl
  | cons g post ih =>
    rw [List.foldl_cons, ih (fun x hx => h x (List.mem_cons_of_mem _ hx))]
    unfold storeFight
    split_ifs with hg
    · have hk : ¬ k = fightKey g := fun e => h g (List.mem_cons_self _ _) hg e.symm
      rw [get_set, if_neg hk]
    · rfl

theorem get_groupParsesByFight (reportCode targetZone : String) (allParses : List PlayerParse)
    (pre post : List Fight) (f : Fight) (hf : isRaidFight targetZone f = true)
    (h : ∀ g ∈ post, isRaidFight targetZone g = true → fightKey g ≠ fightKey f) :
    (groupParsesByFight reportCode targetZone (pre ++ f :: post) allParses).get (fightKey f) =
      some (buildFightParseSet reportCode allParses f) := by
  unfold groupParsesByFight
  rw [List.foldl_append, List.foldl_cons, get_foldl_storeFight _ _ _ _ _ h]
  unfold storeFight
  rw [if_pos hf, get_set, if_pos rfl]

theorem mem_keys_foldl_storeFight (reportCode targetZone : String)
    (allParses : List PlayerParse) (k : String) (fights : List Fight)
    (acc : JSObject FightParseSet)
    (h : k ∈ (fights.foldl (storeFight reportCode targetZone allParses) acc).keys) :
    k ∈ acc.keys ∨ ∃ f ∈ fights, isRaidFight targetZone f = true ∧ fightKey f = k := by
  induction fights generalizing acc with
  | nil => exact Or.inl h
  | cons g fights ih =>
    rw [List.foldl_cons] at h
    rcases ih _ h with h1 | ⟨f, hf, hr, hk⟩
    · unfold storeFight at h1
      split_ifs at h1 with hg
      · rcases mem_keys_set _ _ _ _ h1 with h2 | h2
        · exact Or.inr ⟨g, List.mem_cons_self _ _, hg, h2.symm⟩
        · exact Or.inl h2
      · exact Or.inl h1
    · exact Or.inr ⟨f, List.mem_cons_of_mem _ hf, hr, hk⟩

theorem firstRejected_foldl_some (api : Api) (l : List Player) (b : Player) :
    ∃ x, l.foldl
        (fun best p =>
          match best with
          | none => some p
          | some b =>
            if api.settledAt p.name p.server p.region < api.settledAt b.name b.server b.region
            then some p else some b)
        (some b) = some x ∧ (x = b ∨ x ∈ l) := by
  induction l generalizing b with
  | nil => exact ⟨b, rfl, Or.inl rfl⟩
  | cons a l ih =>
    rw [List.foldl_cons]
    by_cases hlt : api.settledAt a.name a.server a.region < api.settledAt b.name b.server b.region
    · obtain ⟨x, hx, hmem⟩ := ih a
      refine ⟨x, by simpa [hlt] using hx, ?_⟩
      rcases hmem with h | h
      · exact Or.inr (h ▸ List.mem_cons_self _ _)
      · exact Or.inr (List.mem_cons_of_mem _ h)
    · obtain ⟨x, hx, hmem⟩ := ih b
      refine ⟨x, by simpa [hlt] using hx, ?_⟩
      rcases hmem with h | h
      · exact Or.inl h
      · exact Or.inr (List.mem_cons_of_mem _ h)

theorem firstRejected_some (api : Api) (players : List Player)
    (h : ∃ p ∈ players, (api.parses p.name p.server p.region).ok = false) :
    ∃ p ∈ players, (api.parses p.name p.server p.region).ok = false ∧
      firstRejected api players = some p := by
  obtain ⟨q, hq, hqok⟩ := h
  have hmem : q ∈ players.filter (fun p => !(api.parses p.name p.server p.region).ok) := by
    simp [List.mem_filter, hq, hqok]
  unfold firstRejected
  cases hfl : players.filter (fun p => !(api.parses p.name p.server p.region).ok) with
  | nil =>
    rw [hfl] at hmem
    exact absurd hmem (List.not_mem_nil _)
  | cons a l =>
    rw [List.foldl_cons]
    obtain ⟨x, hx, hxmem⟩ := firstRejected_foldl_some api l a
    have hxin : x ∈ players.filter (fun p => !(api.parses p.name p.server p.region).ok) := by
      rw [hfl]
      rcases hxmem with h | h
      · exact h ▸ List.mem_cons_self _ _
      · exact List.mem_cons_of_mem _ h
    have hx2 := List.mem_filter.mp hxin
    exact ⟨x, hx2.1, by simpa using hx2.2, hx⟩

theorem firstRejected_none (api : Api) (players : List Player)
    (h : ∀ p ∈ players, (api.parses p.name p.server p.region).ok = true) :
    firstRejected api players = none := by
  have hnil : players.filter (fun p => !(api.parses p.name p.server p.region).ok) = [] := by
    rw [List.filter_eq_nil_iff]
    intro p hp
    simp [h p hp]
  unfold firstRejected
  rw [hnil]
  rfl

theorem fetchReport_of_success (api : Api) (s0 : ViewState)
    (hok : (api.report s0.reportCode).ok = true)
    (hplayers : (api.report s0.reportCode).json.exportedCharacters.getD [] ≠ [])
    (hall : ∀ p ∈ enhancedRoster (api.report s0.reportCode).json,
      (api.parses p.name p.server p.region).ok = true) :
    fetchReport api s0 =
      { s0 with
        loading := false
        error := none
        reportTitle := orElse (api.report s0.reportCode).json.title "Warcraft Logs Report"
        players := enhancedRoster (api.report s0.reportCode).json
        fightParses :=
          groupParsesByFight s0.reportCode s0.targetZone (api.report s0.reportCode).json.fights
            (flattenParses api (enhancedRoster (api.report s0.reportCode).json))
        selectedFight :=
          if (groupParsesByFight s0.reportCode s0.targetZone
              (api.report s0.reportCode).json.fights
              (flattenParses api (enhancedRoster (api.report s0.reportCode).json))).keys.length > 0
          then
            (groupParsesByFight s0.reportCode s0.targetZone
              (api.report s0.reportCode).json.fights
              (flattenParses api (enhancedRoster (api.report s0.reportCode).json))).keys.head?
          else s0.selectedFight } := by
  have hlen : ¬ ((api.report s0.reportCode).json.exportedCharacters.getD []).length = 0 := by
    intro h
    exact hplayers (List.length_eq_zero.mp h)
  have hrej := firstRejected_none api _ hall
  unfold enhancedRoster at hrej
  unfold fetchReport
  simp only [hok, Bool.not_true, Bool.false_eq_true, if_false, hlen, hrej, enhancedRoster]
  split_ifs <;> rfl

/-- C4, as stated, fails: when the report response is OK and `exportedCharacters` is empty,
`reportTitle` has already been replaced; when a per-player parses response is not OK,
`reportTitle` and `players` have already been replaced. -/
theorem fetchReport_partial_state_counterexample :
    (fetchReport noPlayersApi sampleState).error =
        some "No players found in exportedCharacters." ∧
      (fetchReport noPlayersApi sampleState).reportTitle = "New report" ∧
      (fetchReport noPlayersApi sampleState).reportTitle ≠ sampleState.reportTitle ∧
      (fetchReport failingPlayerApi sampleState).error = some "HTTP error for Bo: 500" ∧
      (fetchReport failingPlayerApi sampleState).players =
        [⟨1, "Al", "Ravencrest", "EU", some "Mage", some "Fire"⟩,
          ⟨2, "Bo", "Ravencrest", "EU", none, none⟩] ∧
      (fetchReport failingPlayerApi sampleState).players ≠ sampleState.players := by
  decide

/-- C4 (amended): when `fetchReport` fails, the state after it has `loading = false`,
`error` = the failure's message, and `fightParses` and `selectedFight` as before the call.
If the report response is not OK, `players` and `reportTitle` are as before too.  If the
report is OK and `exportedCharacters` is absent or empty, `players` is as before and
`reportTitle` is the new report's title (or the default title).  If a per-player parses
response is not OK, `reportTitle` is the new title, `players` is the new enhanced roster,
and the message names a player whose response is not OK. -/
theorem fetchReport_failure (api : Api) (s0 : ViewState) :
    ((api.report s0.reportCode).ok = false →
        fetchReport api s0 =
          { s0 with
            loading := false
            error := some ("HTTP error while fetching report: " ++
              toString (api.report s0.reportCode).status) }) ∧
      ((api.report s0.reportCode).ok = true →
        (api.report s0.reportCode).json.exportedCharacters.getD [] = [] →
        fetchReport api s0 =
          { s0 with
            loading := false
            error := some "No players found in exportedCharacters."
            reportTitle :=
              orElse (api.report s0.reportCode).json.title "Warcraft Logs Report" }) ∧
      ((api.report s0.reportCode).ok = true →
        (api.report s0.reportCode).json.exportedCharacters.getD [] ≠ [] →
        (∃ p ∈ enhancedRoster (api.report s0.reportCode).json,
          (api.parses p.name p.server p.region).ok = false) →
        ∃ p ∈ enhancedRoster (api.report s0.reportCode).json,
          (api.parses p.name p.server p.region).ok = false ∧
          fetchReport api s0 =
            { s0 with
              loading := false
              error := some ("HTTP error for " ++ p.name ++ ": " ++
                toString (api.parses p.name p.server p.region).status)
              reportTitle :=
                orElse (api.report s0.reportCode).json.title "Warcraft Logs Report"
              players := enhancedRoster (api.report s0.reportCode).json }) := by
  refine ⟨?_, ?_, ?_⟩
  · intro hok
    unfold fetchReport
    simp only [hok, Bool.not_false, if_true]
  · intro hok hempty
    unfold fetchReport
    simp only [hok, Bool.not_true, Bool.false_eq_true, if_false, hempty, List.length_nil,
      if_true]
  · intro hok hplayers hfail
    have hlen : ¬ ((api.report s0.reportCode).json.exportedCharacters.getD []).length = 0 := by
      intro h
      exact hplayers (List.length_eq_zero.mp h)
    obtain ⟨p, hp, hpok, hrej⟩ := firstRejected_some api _ hfail
    refine ⟨p, hp, hpok, ?_⟩
    unfold enhancedRoster at hrej
    unfold fetchReport
    simp only [hok, Bool.not_true, Bool.false_eq_true, if_false, hlen, hrej, enhancedRoster]

theorem fetchReport_failure_witness :
    (notFoundApi.report sampleState.reportCode).ok = false ∧
      fetchReport notFoundApi sampleState =
        { sampleState with error := some "HTTP error while fetching report: 404" } ∧
      fetchReport noPlayersApi sampleState =
        { sampleState with
          error := some "No players found in exportedCharacters."
          reportTitle := "New report" } ∧
      (∃ p ∈ enhancedRoster (failingPlayerApi.report sampleState.reportCode).json,
        (failingPlayerApi.parses p.name p.server p.region).ok = false ∧
        fetchReport failingPlayerApi sampleState =
          { sampleState with
            loading := false
            error := some ("HTTP error for " ++ p.name ++ ": " ++
              toString (failingPlayerApi.parses p.name p.server p.region).status)
            reportTitle :=
              orElse (failingPlayerApi.report sampleState.reportCode).json.title
                "Warcraft Logs Report"
            players := enhancedRoster (failingPlayerApi.report sampleState.reportCode).json }) :=
  ⟨by decide,
    ((fetchReport_failure notFoundApi sampleState).1 (by decide)).trans (by decide),
    ((fetchReport_failure noPlayersApi sampleState).2.1 (by decide) (by decide)).trans
      (by decide),
    (fetchReport_failure failingPlayerApi sampleState).2.2 (by decide) (by decide)
      ⟨⟨2, "Bo", "Ravencrest", "EU", none, none⟩, by decide, by decide⟩⟩

/-- C5, as stated, fails: the report holds two raid fights named "Vexie" (ids 1 and 2); after
a successful `fetchReport` the key "Vexie" holds the FightParseSet of fight 2, so for the
raid fight with id 1 the set under its name does not have its id. -/
theorem fetchReport_repeated_name_counterexample :
    (fetchReport repeatApi sampleState).error = none ∧
      sampleFight 1 "Vexie" ∈ (repeatApi.report sampleState.reportCode).json.fights ∧
      isRaidFight sampleState.targetZone (sampleFight 1 "Vexie") = true ∧
      fightKey (sampleFight 1 "Vexie") = "Vexie" ∧
      (((fetchReport repeatApi sampleState).fightParses.get "Vexie").map
        (fun set => set.fightId)) = some 2 ∧
      (((fetchReport repeatApi sampleState).fightParses.get "Vexie").map
        (fun set => set.fightId)) ≠ some (sampleFight 1 "Vexie").id := by
  decide

/-- C5 (amended): after a successful `fetchReport`, for every fight of the report with
`zoneName` equal to the target zone and boss indicator non-zero that no later such fight
of the report shares its key with (the key is `fight.name`, or "Fight " + id when the
name is absent or empty), `fightParses` holds under that key a FightParseSet whose
`fightId` is the fight's id, whose `fightDetails` is the fight, and whose parses are a
permutation of the flattened player parses with `reportID` equal to the report code and
`fightID` equal to the fight's id, each reduced to its player name, `floor(percentile)`
(0 for an absent percentile), spec and class; and every key of `fightParses` is the key
of such a fight. -/
theorem fetchReport_fightParses (api : Api) (s0 : ViewState)
    (hok : (api.report s0.reportCode).ok = true)
    (hplayers : (api.report s0.reportCode).json.exportedCharacters.getD [] ≠ [])
    (hall : ∀ p ∈ enhancedRoster (api.report s0.reportCode).json,
      (api.parses p.name p.server p.region).ok = true) :
    (fetchReport api s0).error = none ∧ (fetchReport api s0).loading = false ∧
      (∀ (pre post : List Fight) (fight : Fight),
        (api.report s0.reportCode).json.fights = pre ++ fight :: post →
        fight.zoneName = s0.targetZone → fight.boss ≠ 0 →
        (∀ g ∈ post, g.zoneName = s0.targetZone → g.boss ≠ 0 → fightKey g ≠ fightKey fight) →
        ∃ set, (fetchReport api s0).fightParses.get (fightKey fight) = some set ∧
          set.fightId = fight.id ∧ set.fightDetails = fight ∧
          set.parses.Perm
            ((((flattenParses api (enhancedRoster (api.report s0.reportCode).json)).filter
              (fun parse => parse.reportID = s0.reportCode ∧ parse.fightID = fight.id)).map
                (fun parse =>
                  ({ playerName := parse.playerName
                     percentile :=
                      match parse.percentile with
                      | none => 0
                      | some q => ⌊q⌋
                     spec := parse.spec
                     class_ := parse.class_ } : Parse))))) ∧
      (∀ k ∈ (fetchReport api s0).fightParses.keys,
        ∃ fight ∈ (api.report s0.reportCode).json.fights,
          fight.zoneName = s0.targetZone ∧ fight.boss ≠ 0 ∧ fightKey fight = k) ∧
      (∀ fight : Fight,
        fightKey fight =
          match fight.name with
          | none => "Fight " ++ toString fight.id
          | some n => if n = "" then "Fight " ++ toString fight.id else n) := by
  rw [fetchReport_of_success api s0 hok hplayers hall]
  refine ⟨rfl, rfl, ?_, ?_, ?_⟩
  · intro pre post fight hfights hzone hboss hlast
    have hraid : isRaidFight s0.targetZone fight = true := by
      simp [isRaidFight, hzone, hboss]
    have hlast2 : ∀ g ∈ post, isRaidFight s0.targetZone g = true →
        fightKey g ≠ fightKey fight := by
      intro g hg hr
      simp only [isRaidFight, decide_eq_true_eq] at hr
      exact hlast g hg hr.2 hr.1
    refine ⟨buildFightParseSet s0.reportCode
      (flattenParses api (enhancedRoster (api.report s0.reportCode).json)) fight, ?_, rfl, rfl, ?_⟩
    · simp only [hfights]
      exact get_groupParsesByFight _ _ _ pre post fight hraid hlast2
    · have hred : ∀ parse : PlayerParse, reduceParse parse =
          ({ playerName := parse.playerName
             percentile :=
              match parse.percentile with
              | none => 0
              | some q => ⌊q⌋
             spec := parse.spec
             class_ := parse.class_ } : Parse) := by
        intro parse
        unfold reduceParse
        cases parse.percentile <;> simp [Rat.floor_def', Rat.floor_def]
      have hfun : reduceParse = fun parse : PlayerParse =>
          ({ playerName := parse.playerName
             percentile :=
              match parse.percentile with
              | none => 0
              | some q => ⌊q⌋
             spec := parse.spec
             class_ := parse.class_ } : Parse) := funext hred
      rw [← hfun]
      exact arraySort_perm _ _
  · intro k hk
    rcases mem_keys_foldl_storeFight _ _ _ k _ [] hk with h | ⟨f, hf, hr, hkey⟩
    · simp [JSObject.keys] at h
    · simp only [isRaidFight, decide_eq_true_eq] at hr
      exact ⟨f, hf, hr.2, hr.1, hkey⟩
  · intro fight
    unfold fightKey orElse
    cases fight.name <;> rfl

theorem fetchReport_fightParses_witness :
    (repeatApi.report sampleState.reportCode).ok = true ∧
      (fetchReport repeatApi sampleState).error = none ∧
      (fetchReport repeatApi sampleState).fightParses.keys = ["Vexie", "Cauldron"] ∧
      ((fetchReport repeatApi sampleState).fightParses.get "Cauldron").map
          (fun set => (set.fightId, set.parses)) =
        some (3, [⟨"Bo", 20, some "Holy", some "Priest"⟩, ⟨"Al", 0, some "Fire", some "Mage"⟩]) :=
  ⟨by decide,
    (fetchReport_fightParses repeatApi sampleState (by decide) (by decide) (by decide)).1,
    by decide, by decide⟩

end WarcraftLogs
